import Mathlib

/-!
Shallow embedding of the two-pass OCR merge pipeline
(`integrate_children.py` and `pipeline.py`).

Modelling conventions:
* Python floats are modelled as rationals (`ℚ`); the coordinates the code
  manipulates are exact page coordinates, and every operation performed on
  them (comparison, rounding, copying) is exact.
* A JSON block (a Python dict) is modelled as a structure of optional
  fields: a missing key is `none`.  `d.get(k, v)` becomes `Option.getD`.
* Python lists are Lean lists; a set of keys is modelled as a list with
  membership tests (multiplicity never matters).
* The in-place mutation of picture blocks through references into
  `layout["blocks"]` is modelled by index-based updates on the block list,
  as the design notes themselves recommend.
-/

namespace DotsMerge

/-- A second-pass grounding block or a synthesized `PictureText` child
block: category, bbox, text, confidence, source (all optional keys of the
underlying JSON dict). -/
structure Blk where
  category : Option String
  bbox : Option (List ℚ)
  text : Option String
  conf : Option ℚ
  src : Option String
  deriving DecidableEq, Repr

/-- A first-pass layout block: same fields, plus the `picture-children`
key that the merge populates on `Picture` blocks. -/
structure Block where
  category : Option String
  bbox : Option (List ℚ)
  text : Option String
  conf : Option ℚ
  pictureChildren : Option (List Blk)
  deriving DecidableEq, Repr

/-- A grounding result: the `blocks` list of the second-pass OCR JSON
(`gjson.get("blocks", [])`; a missing key is the empty list). -/
structure Grounding where
  blocks : List Blk
  deriving DecidableEq, Repr

/-- A layout document: ordered block list plus the free-form `meta`
mapping (modelled as an insertion-ordered association list; the values
the merge logic reads and writes are strings). -/
structure Doc where
  blocks : List Block
  meta : List (String × String)
  deriving DecidableEq, Repr

/-- Default block used for out-of-range index reads (never reached by the
orchestrator, which only produces in-range indices). -/
def defaultBlock : Block := ⟨none, none, none, none, none⟩

/-- Python 3 `round` on an exact value: round half to even
(banker's rounding), as used by `_bbox_key`. -/
def pyRound (q : ℚ) : ℤ :=
  let f := ⌊q⌋
  let r := q - f
  if r < 1/2 then f
  else if 1/2 < r then f + 1
  else if 2 ∣ f then f else f + 1

/-- `_bbox_key(bbox)`: the 4-tuple of rounded coordinates.  The Python
function unpacks exactly four elements; every call site reaching it is
guarded by a length-4 check, and the embedding totalizes the out-of-domain
case with `getD`. -/
def bbox_key (b : List ℚ) : ℤ × ℤ × ℤ × ℤ :=
  (pyRound (b.getD 0 0), pyRound (b.getD 1 0),
   pyRound (b.getD 2 0), pyRound (b.getD 3 0))

/-- `_contains(outer, inner, tol)`: `inner` lies within `outer` expanded
by `tol` on every side.  Python unpacks exactly four coordinates from
each list; call sites are guarded by length-4 checks and the embedding
totalizes the remaining cases to `false`. -/
def pyContains (outer inner : List ℚ) (tol : ℚ) : Bool :=
  match outer, inner with
  | [ox1, oy1, ox2, oy2], [ix1, iy1, ix2, iy2] =>
      decide (ix1 ≥ ox1 - tol) && decide (iy1 ≥ oy1 - tol) &&
      decide (ix2 ≤ ox2 + tol) && decide (iy2 ≤ oy2 + tol)
  | _, _ => false

/-- `_to_picturetext_block(txt_blk)`: convert a second-pass `Text` block
into a `PictureText` child.  The bbox is copied coordinate by coordinate
(`float(...)` of an exact value is the identity); the confidence, when
present, is copied (a numeric confidence always converts). -/
def to_picturetext_block (blk : Blk) : Blk :=
  { category := some "PictureText",
    bbox := some [(blk.bbox.getD []).getD 0 0, (blk.bbox.getD []).getD 1 0,
                  (blk.bbox.getD []).getD 2 0, (blk.bbox.getD []).getD 3 0],
    text := some (blk.text.getD ""),
    conf := blk.conf,
    src := some "picture-ocr" }

/-- The `if not pb or len(pb) != 4` guard: a bbox is usable iff the key
is present and the list has exactly four elements (an empty list is both
falsy and of wrong length). -/
def validBbox4 : Option (List ℚ) → Bool
  | none => false
  | some l => l.length == 4

/-- The dedup key of a candidate: `(_bbox_key(tb), text)` where `text`
is `blk.get("text", "")`. -/
def candKey (blk : Blk) : (ℤ × ℤ × ℤ × ℤ) × String :=
  (bbox_key (blk.bbox.getD []), blk.text.getD "")

/-- Seeding of the seen-set from the existing children: every child whose
category is `PictureText` and which has both a `text` and a `bbox` key
contributes `(_bbox_key(ch["bbox"]), ch["text"])`. -/
def seedSeen (children : List Blk) : List ((ℤ × ℤ × ℤ × ℤ) × String) :=
  children.filterMap (fun ch =>
    if ch.category = some "PictureText" ∧ ch.text ≠ none ∧ ch.bbox ≠ none then
      some (bbox_key (ch.bbox.getD []), ch.text.getD "")
    else none)

/-- The default containment tolerance of `_contains`: 0.5. -/
def tol_default : ℚ := 1/2

/-- One iteration of the inner loop of `attach_picture_children` over a
grounding block: skip (`continue`) non-`Text` categories, invalid bboxes,
fragments not contained in the picture bbox (default tolerance 0.5), and
— when dedup is on — already-seen keys; otherwise append the converted
child and record its key.  The Python loop skips on the negated
conditions; the nesting below is the equivalent positive form. -/
def mergeStep (pb : List ℚ) (dedup_exact : Bool)
    (acc : List Blk × List ((ℤ × ℤ × ℤ × ℤ) × String)) (blk : Blk) :
    List Blk × List ((ℤ × ℤ × ℤ × ℤ) × String) :=
  if blk.category = some "Text" then
    if validBbox4 blk.bbox then
      if pyContains pb (blk.bbox.getD []) tol_default then
        if dedup_exact ∧ candKey blk ∈ acc.2 then acc
        else (acc.1 ++ [to_picturetext_block blk],
              if dedup_exact then candKey blk :: acc.2 else acc.2)
      else acc
    else acc
  else acc

/-- The body of `attach_picture_children` for one `(pic, gjson)` pair:
skip non-`Picture` blocks; read the existing children and (when dedup is
on) seed the seen-set from them; skip malformed picture bboxes; fold the
grounding blocks through `mergeStep`; store the resulting list under
`picture-children` when non-empty, and remove the key when empty. -/
def mergePicture (pic : Block) (gjson : Grounding) (dedup_exact : Bool) : Block :=
  if pic.category ≠ some "Picture" then pic
  else
    let children := pic.pictureChildren.getD []
    let seen := if dedup_exact then seedSeen children else []
    if ¬ validBbox4 pic.bbox then pic
    else
      let pb := pic.bbox.getD []
      let res := gjson.blocks.foldl (mergeStep pb dedup_exact) (children, seen)
      { pic with pictureChildren := if res.1 = [] then none else some res.1 }

/-- `meta[k] = v` on the insertion-ordered mapping. -/
def metaSet (m : List (String × String)) (k v : String) : List (String × String) :=
  if (m.lookup k).isSome then m.map (fun p => if p.1 = k then (k, v) else p)
  else m ++ [(k, v)]

/-- `meta.setdefault(k, v)`. -/
def metaSetdefault (m : List (String × String)) (k v : String) :
    List (String × String) :=
  if (m.lookup k).isSome then m else m ++ [(k, v)]

/-- `attach_picture_children(dots_layout, per_picture_grounding, dedup_exact)`:
merge each `(picture, grounding)` pair into the document (the Python
code mutates picture blocks through references into
`dots_layout["blocks"]`; the embedding updates the block at the pair's
index), then stamp `meta["merge_version"]` and `meta["source"]`. -/
def attach_picture_children (doc : Doc) (pairs : List (ℕ × Grounding))
    (dedup_exact : Bool) : Doc :=
  { blocks :=
      pairs.foldl
        (fun bs p => bs.set p.1 (mergePicture (bs.getD p.1 defaultBlock) p.2 dedup_exact))
        doc.blocks,
    meta := metaSet (metaSet doc.meta "merge_version" "hier-v1")
              "source" "dots+picture2pass" }

/-- `collect_pictures`, observed through indices: positions (in document
order) of the blocks whose category is `Picture`. -/
def pictureIndices (layout : Doc) : List ℕ :=
  (List.range layout.blocks.length).filter
    (fun i => (layout.blocks.getD i defaultBlock).category == some "Picture")

/-- The picture-selection loop of `process_page`: walk the pictures in
document order, break once `count` reaches the cap, skip pictures with a
missing or malformed bbox without counting them, and record (in order)
the indices that receive a grounding call. -/
def selectLoop (blocks : List Block) : List ℕ → ℕ → List ℕ
  | [], _ => []
  | _ :: _, 0 => []
  | i :: rest, Nat.succ k =>
      if validBbox4 (blocks.getD i defaultBlock).bbox
      then i :: selectLoop blocks rest k
      else selectLoop blocks rest (Nat.succ k)

/-- `process_page`: the external `run_layout` call is modelled by the
`layout` argument and the external `run_grounding` collaborator by the
injected function `runG` from a picture bbox to its grounding result.
Returns the resulting document together with the list of block indices
that received a grounding call (the instrumentation used to state how
many calls were issued). -/
def process_page (layout : Doc) (runG : List ℚ → Grounding)
    (max_pictures_per_page : ℕ) : Doc × List ℕ :=
  let pictures := pictureIndices layout
  if pictures = [] then
    ({ layout with meta := metaSetdefault layout.meta "source" "dots" }, [])
  else
    let sel := selectLoop layout.blocks pictures max_pictures_per_page
    let pairs := sel.map
      (fun i => (i, runG ((layout.blocks.getD i defaultBlock).bbox.getD [])))
    (attach_picture_children layout pairs true, sel)

end DotsMerge

namespace DotsMerge

/-- C2: `_contains(outer, inner, t)` returns true iff
`inner.x1 ≥ outer.x1 - t`, `inner.y1 ≥ outer.y1 - t`,
`inner.x2 ≤ outer.x2 + t` and `inner.y2 ≤ outer.y2 + t`; consequently it
is false whenever any single one of the four comparisons fails. -/
theorem contains_contract (o1 o2 o3 o4 i1 i2 i3 i4 t : ℚ) (_ht : 0 ≤ t) :
    (pyContains [o1, o2, o3, o4] [i1, i2, i3, i4] t = true) ↔
      (i1 ≥ o1 - t ∧ i2 ≥ o2 - t ∧ i3 ≤ o3 + t ∧ i4 ≤ o4 + t) := by
  simp [pyContains, and_assoc]

/-- Witness for `contains_contract` at a concrete containment instance. -/
theorem contains_contract_witness :
    (pyContains [(0 : ℚ), 0, 10, 10] [1, 1, 2, 2] (1/2) = true) ↔
      ((1 : ℚ) ≥ 0 - 1/2 ∧ (1 : ℚ) ≥ 0 - 1/2 ∧
       (2 : ℚ) ≤ 10 + 1/2 ∧ (2 : ℚ) ≤ 10 + 1/2) :=
  contains_contract 0 0 10 10 1 1 2 2 (1/2) (by norm_num)

/-- C8: whenever the picture block's category is not `Picture`, or its
bbox is missing or not a 4-element list, the merge leaves the block
entirely unchanged (all fields equal). -/
theorem mergePicture_noop (pic : Block) (g : Grounding) (d : Bool)
    (h : pic.category ≠ some "Picture" ∨ validBbox4 pic.bbox = false) :
    mergePicture pic g d = pic := by
  unfold mergePicture
  rcases h with h | h
  · simp [h]
  · by_cases hc : pic.category = some "Picture" <;> simp [hc, h]

/-- Witness for `mergePicture_noop`: a `Picture` block with a 3-element
bbox is returned unchanged. -/
theorem mergePicture_noop_witness :
    mergePicture ⟨some "Picture", some [1, 2, 3], none, none, some []⟩
        ⟨[⟨some "Text", some [1, 1, 2, 2], some "x", none, none⟩]⟩ true =
      ⟨some "Picture", some [1, 2, 3], none, none, some []⟩ :=
  mergePicture_noop _ _ _ (Or.inr (by decide))

end DotsMerge

namespace DotsMerge

/-- A grounding block passes all geometric/category filters of the inner
loop for picture bbox `pb`: category `Text`, valid 4-element bbox, and
contained in `pb` at tolerance 0.5. -/
def qualifies (pb : List ℚ) (blk : Blk) : Prop :=
  blk.category = some "Text" ∧ validBbox4 blk.bbox = true ∧
    pyContains pb (blk.bbox.getD []) tol_default = true

theorem mergeStep_cases (pb : List ℚ) (d : Bool)
    (acc : List Blk × List ((ℤ × ℤ × ℤ × ℤ) × String)) (b : Blk) :
    mergeStep pb d acc b = acc ∨
      (qualifies pb b ∧
        (mergeStep pb d acc b).1 = acc.1 ++ [to_picturetext_block b]) := by
  unfold mergeStep qualifies
  by_cases h1 : b.category = some "Text"
  · by_cases h2 : validBbox4 b.bbox = true
    · by_cases h3 : pyContains pb (b.bbox.getD []) tol_default = true
      · by_cases h4 : d = true ∧ candKey b ∈ acc.2
        · exact Or.inl (by simp [h1, h2, h3, h4])
        · exact Or.inr ⟨⟨h1, h2, h3⟩, by simp [h1, h2, h3, h4]⟩
      · exact Or.inl (by simp [h1, h2, h3])
    · exact Or.inl (by simp [h1, h2])
  · exact Or.inl (by simp [h1])

/-- The inner fold of the merge appends, after the initial child list, the
conversions of an in-order selection (a sublist) of the grounding blocks,
each of which passes every filter. -/
theorem foldl_mergeStep_decomp (pb : List ℚ) (d : Bool) (bs : List Blk) :
    ∀ (cs : List Blk) (seen : List ((ℤ × ℤ × ℤ × ℤ) × String)),
    ∃ s : List Blk, s.Sublist bs ∧ (∀ b ∈ s, qualifies pb b) ∧
      (bs.foldl (mergeStep pb d) (cs, seen)).1 = cs ++ s.map to_picturetext_block := by
  induction bs with
  | nil => intro cs seen; exact ⟨[], List.Sublist.refl _, by simp, by simp⟩
  | cons b bs ih =>
    intro cs seen
    rcases mergeStep_cases pb d (cs, seen) b with h | ⟨hq, h1⟩
    · rcases ih cs seen with ⟨s, hs, hqs, heq⟩
      refine ⟨s, hs.cons b, hqs, ?_⟩
      simpa [h] using heq
    · have hpair : mergeStep pb d (cs, seen) b =
          (cs ++ [to_picturetext_block b], (mergeStep pb d (cs, seen) b).2) := by
        rw [← h1]
      rcases ih (cs ++ [to_picturetext_block b]) (mergeStep pb d (cs, seen) b).2
        with ⟨s, hs, hqs, heq⟩
      refine ⟨b :: s, hs.cons₂ b, ?_, ?_⟩
      · intro x hx
        rcases List.mem_cons.mp hx with rfl | hx
        · exact hq
        · exact hqs x hx
      · rw [List.foldl_cons, hpair, heq]
        simp


theorem getD_ite_empty (l : List Blk) :
    (if l = [] then (none : Option (List Blk)) else some l).getD [] = l := by
  by_cases h : l = [] <;> simp [h]

/-- Decomposition of one merge: when the picture block is a `Picture`
with a valid bbox, the resulting child list is the pre-existing children
followed by the conversions of an in-order sublist of the grounding
blocks, each of which qualifies geometrically. -/
theorem mergePicture_decomp (pic : Block) (g : Grounding) (d : Bool)
    (hcat : pic.category = some "Picture") (hbb : validBbox4 pic.bbox = true) :
    ∃ s : List Blk, s.Sublist g.blocks ∧
      (∀ b ∈ s, qualifies (pic.bbox.getD []) b) ∧
      (mergePicture pic g d).pictureChildren.getD [] =
        pic.pictureChildren.getD [] ++ s.map to_picturetext_block := by
  rcases foldl_mergeStep_decomp (pic.bbox.getD []) d g.blocks
      (pic.pictureChildren.getD [])
      (if d then seedSeen (pic.pictureChildren.getD []) else [])
    with ⟨s, hs, hq, heq⟩
  refine ⟨s, hs, hq, ?_⟩
  unfold mergePicture
  simp only [hcat, hbb]
  simpa [getD_ite_empty] using heq

end DotsMerge

namespace DotsMerge

/-- C10: after a merge on a `Picture` block with a valid bbox, the
pre-existing children are an unmodified prefix of the resulting child
list, and the newly attached `PictureText` children follow them in the
same relative order as their source blocks in `groundingResult.blocks`
(they are the conversions of an in-order sublist of it). -/
theorem merged_children_order (pic : Block) (g : Grounding) (d : Bool)
    (hcat : pic.category = some "Picture") (hbb : validBbox4 pic.bbox = true) :
    ∃ s : List Blk, s.Sublist g.blocks ∧
      (mergePicture pic g d).pictureChildren.getD [] =
        pic.pictureChildren.getD [] ++ s.map to_picturetext_block := by
  rcases mergePicture_decomp pic g d hcat hbb with ⟨s, hs, -, heq⟩
  exact ⟨s, hs, heq⟩

/-- Witness for `merged_children_order` at a concrete picture, one
pre-existing child, and a one-block grounding result. -/
theorem merged_children_order_witness :
    ∃ s : List Blk,
      s.Sublist [⟨some "Text", some [1, 1, 2, 2], some "a", none, none⟩] ∧
      (mergePicture
          ⟨some "Picture", some [0, 0, 10, 10], none, none,
            some [⟨some "PictureText", some [3, 3, 4, 4], some "old", none,
                    some "picture-ocr"⟩]⟩
          ⟨[⟨some "Text", some [1, 1, 2, 2], some "a", none, none⟩]⟩
          true).pictureChildren.getD [] =
        (⟨some "Picture", some [0, 0, 10, 10], none, none,
            some [⟨some "PictureText", some [3, 3, 4, 4], some "old", none,
                    some "picture-ocr"⟩]⟩ : Block).pictureChildren.getD [] ++
          s.map to_picturetext_block :=
  merged_children_order _ _ true (by decide) (by decide)

/-- C4: a grounding fragment whose bbox lies outside the picture bbox by
more than the tolerance is never appended: every newly appended child is
the verbatim conversion (never clipped) of a grounding block whose bbox
is contained in the picture bbox at tolerance 0.5. -/
theorem no_cross_contamination (pic : Block) (g : Grounding) (d : Bool)
    (hcat : pic.category = some "Picture") (hbb : validBbox4 pic.bbox = true) :
    ∀ c ∈ ((mergePicture pic g d).pictureChildren.getD []).drop
        (pic.pictureChildren.getD []).length,
      ∃ b ∈ g.blocks, c = to_picturetext_block b ∧
        pyContains (pic.bbox.getD []) (b.bbox.getD []) tol_default = true := by
  rcases mergePicture_decomp pic g d hcat hbb with ⟨s, hs, hq, heq⟩
  intro c hc
  rw [heq, List.drop_left] at hc
  rcases List.mem_map.mp hc with ⟨b, hb, rfl⟩
  exact ⟨b, hs.subset hb, rfl, (hq b hb).2.2⟩

/-- Witness for `no_cross_contamination`: the single appended child of a
concrete merge originates from a contained grounding block. -/
theorem no_cross_contamination_witness :
    ∃ b ∈ [(⟨some "Text", some [1, 1, 2, 2], some "a", none, none⟩ : Blk)],
      (⟨some "PictureText", some [1, 1, 2, 2], some "a", none,
          some "picture-ocr"⟩ : Blk) = to_picturetext_block b ∧
      pyContains [0, 0, 10, 10] (b.bbox.getD []) tol_default = true :=
  no_cross_contamination
    ⟨some "Picture", some [0, 0, 10, 10], none, none, none⟩
    ⟨[⟨some "Text", some [1, 1, 2, 2], some "a", none, none⟩]⟩
    true (by decide) (by decide)
    ⟨some "PictureText", some [1, 1, 2, 2], some "a", none, some "picture-ocr"⟩
    (by
      have hc : pyContains [0, 0, 10, 10] [1, 1, 2, 2] tol_default = true := by
        norm_num [pyContains, tol_default]
      simp [mergePicture, mergeStep, seedSeen, candKey, to_picturetext_block,
        validBbox4, hc])

end DotsMerge

namespace DotsMerge

/-- C3 (amended): every child the merge appends originates from a
grounding block whose category is `Text` and whose bbox is a valid
4-element list; the appended child is its verbatim conversion.  (The
code does not require the text to be non-empty: a missing text is
attached as the empty string — see the counterexample.) -/
theorem appended_children_provenance (pic : Block) (g : Grounding) (d : Bool)
    (hcat : pic.category = some "Picture") (hbb : validBbox4 pic.bbox = true) :
    ∀ c ∈ ((mergePicture pic g d).pictureChildren.getD []).drop
        (pic.pictureChildren.getD []).length,
      ∃ b ∈ g.blocks, b.category = some "Text" ∧ validBbox4 b.bbox = true ∧
        c = to_picturetext_block b := by
  rcases mergePicture_decomp pic g d hcat hbb with ⟨s, hs, hq, heq⟩
  intro c hc
  rw [heq, List.drop_left] at hc
  rcases List.mem_map.mp hc with ⟨b, hb, rfl⟩
  exact ⟨b, hs.subset hb, (hq b hb).1, (hq b hb).2.1, rfl⟩

/-- Witness for `appended_children_provenance` at a concrete merge. -/
theorem appended_children_provenance_witness :
    ∃ b ∈ [(⟨some "Text", some [2, 2, 3, 3], some "w", none, none⟩ : Blk)],
      b.category = some "Text" ∧ validBbox4 b.bbox = true ∧
      (⟨some "PictureText", some [2, 2, 3, 3], some "w", none,
          some "picture-ocr"⟩ : Blk) = to_picturetext_block b :=
  appended_children_provenance
    ⟨some "Picture", some [0, 0, 10, 10], none, none, none⟩
    ⟨[⟨some "Text", some [2, 2, 3, 3], some "w", none, none⟩]⟩
    true (by decide) (by decide)
    ⟨some "PictureText", some [2, 2, 3, 3], some "w", none, some "picture-ocr"⟩
    (by
      have hc : pyContains [0, 0, 10, 10] [2, 2, 3, 3] tol_default = true := by
        norm_num [pyContains, tol_default]
      simp [mergePicture, mergeStep, seedSeen, candKey, to_picturetext_block,
        validBbox4, hc])

/-- Counterexample to C3 as stated: `attach_picture_children` never
checks that a `Text` grounding block has non-empty text.  A contained
`Text` block with no `"text"` key at all is converted into a
`PictureText` child carrying the empty string, contradicting the claim
that no grounding block with empty or missing text is ever converted. -/
theorem empty_text_block_is_attached :
    (mergePicture ⟨some "Picture", some [0, 0, 10, 10], none, none, none⟩
        ⟨[⟨some "Text", some [1, 1, 2, 2], none, none, none⟩]⟩
        true).pictureChildren =
      some [⟨some "PictureText", some [1, 1, 2, 2], some "", none,
              some "picture-ocr"⟩] := by
  have hc : pyContains [0, 0, 10, 10] [1, 1, 2, 2] tol_default = true := by
    norm_num [pyContains, tol_default]
  simp [mergePicture, mergeStep, seedSeen, candKey, to_picturetext_block,
    validBbox4, hc]

end DotsMerge

namespace DotsMerge

/-- C5: two qualifying candidates are treated as duplicates — the later
one skipped — precisely when their bbox keys agree and their texts are
exactly equal: merging a two-block grounding result into a childless
picture yields one child when the keys coincide and both children
otherwise; and the bbox keys coincide iff all four coordinates round to
the same integer. -/
theorem dedup_identity (pic : Block) (b1 b2 : Blk) (t1 t2 : String)
    (hcat : pic.category = some "Picture") (hbb : validBbox4 pic.bbox = true)
    (hnc : pic.pictureChildren = none)
    (h1c : b1.category = some "Text") (h2c : b2.category = some "Text")
    (h1b : validBbox4 b1.bbox = true) (h2b : validBbox4 b2.bbox = true)
    (h1t : b1.text = some t1) (h2t : b2.text = some t2)
    (h1in : pyContains (pic.bbox.getD []) (b1.bbox.getD []) tol_default = true)
    (h2in : pyContains (pic.bbox.getD []) (b2.bbox.getD []) tol_default = true) :
    ((mergePicture pic ⟨[b1, b2]⟩ true).pictureChildren.getD [] =
      if bbox_key (b1.bbox.getD []) = bbox_key (b2.bbox.getD []) ∧ t1 = t2
      then [to_picturetext_block b1]
      else [to_picturetext_block b1, to_picturetext_block b2]) ∧
    (bbox_key (b1.bbox.getD []) = bbox_key (b2.bbox.getD []) ↔
      (pyRound ((b1.bbox.getD []).getD 0 0) = pyRound ((b2.bbox.getD []).getD 0 0) ∧
       pyRound ((b1.bbox.getD []).getD 1 0) = pyRound ((b2.bbox.getD []).getD 1 0) ∧
       pyRound ((b1.bbox.getD []).getD 2 0) = pyRound ((b2.bbox.getD []).getD 2 0) ∧
       pyRound ((b1.bbox.getD []).getD 3 0) = pyRound ((b2.bbox.getD []).getD 3 0))) := by
  constructor
  · by_cases hk : bbox_key (b1.bbox.getD []) = bbox_key (b2.bbox.getD []) ∧ t1 = t2
    · simp only [if_pos hk]
      simp [mergePicture, hcat, hbb, hnc, mergeStep, h1c, h2c, h1b, h2b,
        h1in, h2in, seedSeen, candKey, h1t, h2t, hk.1, hk.2]
    · simp only [if_neg hk]
      rw [not_and_or] at hk
      have hne : ¬(bbox_key (b2.bbox.getD []) = bbox_key (b1.bbox.getD []) ∧
          t2 = t1) := by
        rintro ⟨hb, ht⟩
        rcases hk with hk | hk
        · exact hk hb.symm
        · exact hk ht.symm
      simp [mergePicture, hcat, hbb, hnc, mergeStep, h1c, h2c, h1b, h2b,
        h1in, h2in, seedSeen, candKey, h1t, h2t, hne]
  · unfold bbox_key
    simp [Prod.ext_iff]

end DotsMerge

namespace DotsMerge

/-- Witness for `dedup_identity` on two concrete non-duplicate
candidates. -/
theorem dedup_identity_witness :
    ((mergePicture ⟨some "Picture", some [0, 0, 10, 10], none, none, none⟩
        ⟨[⟨some "Text", some [1, 1, 2, 2], some "a", none, none⟩,
          ⟨some "Text", some [5, 5, 6, 6], some "b", none, none⟩]⟩
        true).pictureChildren.getD [] =
      if bbox_key [1, 1, 2, 2] = bbox_key [5, 5, 6, 6] ∧ "a" = "b"
      then [to_picturetext_block ⟨some "Text", some [1, 1, 2, 2], some "a", none, none⟩]
      else [to_picturetext_block ⟨some "Text", some [1, 1, 2, 2], some "a", none, none⟩,
            to_picturetext_block ⟨some "Text", some [5, 5, 6, 6], some "b", none, none⟩]) ∧
    (bbox_key [1, 1, 2, 2] = bbox_key [5, 5, 6, 6] ↔
      (pyRound 1 = pyRound 5 ∧ pyRound 1 = pyRound 5 ∧
       pyRound 2 = pyRound 6 ∧ pyRound 2 = pyRound 6)) :=
  dedup_identity
    ⟨some "Picture", some [0, 0, 10, 10], none, none, none⟩
    ⟨some "Text", some [1, 1, 2, 2], some "a", none, none⟩
    ⟨some "Text", some [5, 5, 6, 6], some "b", none, none⟩
    "a" "b" (by decide) (by decide) rfl (by decide) (by decide)
    (by decide) (by decide) rfl rfl
    (by norm_num [pyContains, tol_default])
    (by norm_num [pyContains, tol_default])

end DotsMerge

namespace DotsMerge

theorem seedSeen_append_conv (cs : List Blk) (b : Blk) :
    seedSeen (cs ++ [to_picturetext_block b]) = seedSeen cs ++ [candKey b] := by
  simp [seedSeen, to_picturetext_block, candKey, List.filterMap_append, bbox_key]

theorem mergeStep_cases2 (pb : List ℚ) (d : Bool)
    (acc : List Blk × List ((ℤ × ℤ × ℤ × ℤ) × String)) (b : Blk) :
    mergeStep pb d acc b = acc ∨
      (qualifies pb b ∧ ¬(d = true ∧ candKey b ∈ acc.2) ∧
        mergeStep pb d acc b =
          (acc.1 ++ [to_picturetext_block b],
           if d then candKey b :: acc.2 else acc.2)) := by
  unfold mergeStep qualifies
  by_cases h1 : b.category = some "Text"
  · by_cases h2 : validBbox4 b.bbox = true
    · by_cases h3 : pyContains pb (b.bbox.getD []) tol_default = true
      · by_cases h4 : d = true ∧ candKey b ∈ acc.2
        · exact Or.inl (by simp [h1, h2, h3, h4])
        · exact Or.inr ⟨⟨h1, h2, h3⟩, h4, by simp [h1, h2, h3, h4]⟩
      · exact Or.inl (by simp [h1, h2, h3])
    · exact Or.inl (by simp [h1, h2])
  · exact Or.inl (by simp [h1])

theorem mergeStep_key_mem (pb : List ℚ)
    (acc : List Blk × List ((ℤ × ℤ × ℤ × ℤ) × String)) (b : Blk)
    (hq : qualifies pb b) : candKey b ∈ (mergeStep pb true acc b).2 := by
  obtain ⟨h1, h2, h3⟩ := hq
  unfold mergeStep
  by_cases h4 : candKey b ∈ acc.2
  · simp [h1, h2, h3, h4]
  · simp [h1, h2, h3, h4]

theorem mergeStep_seen_mono (pb : List ℚ) (d : Bool)
    (acc : List Blk × List ((ℤ × ℤ × ℤ × ℤ) × String)) (b : Blk)
    (k : (ℤ × ℤ × ℤ × ℤ) × String) (hk : k ∈ acc.2) :
    k ∈ (mergeStep pb d acc b).2 := by
  rcases mergeStep_cases2 pb d acc b with h | ⟨-, -, h⟩
  · rw [h]; exact hk
  · rw [h]; cases d <;> simp [hk]

theorem foldl_seen_mono (pb : List ℚ) (d : Bool) (bs : List Blk) :
    ∀ (acc : List Blk × List ((ℤ × ℤ × ℤ × ℤ) × String))
      (k : (ℤ × ℤ × ℤ × ℤ) × String), k ∈ acc.2 →
      k ∈ (bs.foldl (mergeStep pb d) acc).2 := by
  induction bs with
  | nil => intro acc k hk; simpa using hk
  | cons x bs ih =>
    intro acc k hk
    rw [List.foldl_cons]
    exact ih _ k (mergeStep_seen_mono pb d acc x k hk)

theorem foldl_qual_keys (pb : List ℚ) (bs : List Blk) :
    ∀ (acc : List Blk × List ((ℤ × ℤ × ℤ × ℤ) × String)) (b : Blk),
      b ∈ bs → qualifies pb b →
      candKey b ∈ (bs.foldl (mergeStep pb true) acc).2 := by
  induction bs with
  | nil => intro acc b hb; exact absurd hb (List.not_mem_nil b)
  | cons x bs ih =>
    intro acc b hb hq
    rw [List.foldl_cons]
    rcases List.mem_cons.mp hb with rfl | hb
    · exact foldl_seen_mono pb true bs _ _ (mergeStep_key_mem pb acc b hq)
    · exact ih _ b hb hq

theorem mergeStep_inv (pb : List ℚ)
    (acc : List Blk × List ((ℤ × ℤ × ℤ × ℤ) × String)) (x : Blk)
    (H : ∀ k ∈ acc.2, k ∈ seedSeen acc.1) :
    ∀ k ∈ (mergeStep pb true acc x).2, k ∈ seedSeen (mergeStep pb true acc x).1 := by
  rcases mergeStep_cases2 pb true acc x with h | ⟨-, -, h⟩
  · rw [h]; exact H
  · rw [h]
    intro k hk
    simp only [if_true, List.mem_cons] at hk
    rcases hk with hk | hk
    · subst hk; rw [seedSeen_append_conv]; simp
    · rw [seedSeen_append_conv]
      exact List.mem_append_left _ (H k hk)

theorem foldl_seen_sub (pb : List ℚ) (bs : List Blk) :
    ∀ (acc : List Blk × List ((ℤ × ℤ × ℤ × ℤ) × String)),
      (∀ k ∈ acc.2, k ∈ seedSeen acc.1) →
      ∀ k ∈ (bs.foldl (mergeStep pb true) acc).2,
        k ∈ seedSeen (bs.foldl (mergeStep pb true) acc).1 := by
  induction bs with
  | nil => intro acc H; simpa using H
  | cons x bs ih =>
    intro acc H
    rw [List.foldl_cons]
    exact ih _ (mergeStep_inv pb acc x H)

theorem foldl_noop (pb : List ℚ) (bs : List Blk) :
    ∀ (acc : List Blk × List ((ℤ × ℤ × ℤ × ℤ) × String)),
      (∀ b ∈ bs, qualifies pb b → candKey b ∈ acc.2) →
      bs.foldl (mergeStep pb true) acc = acc := by
  induction bs with
  | nil => intro acc _; simp
  | cons x bs ih =>
    intro acc H
    have hx : mergeStep pb true acc x = acc := by
      rcases mergeStep_cases2 pb true acc x with h | ⟨hq, hnk, -⟩
      · exact h
      · exact absurd ⟨rfl, H x (List.mem_cons_self x bs) hq⟩ hnk
    rw [List.foldl_cons, hx]
    exact ih acc (fun b hb => H b (List.mem_cons_of_mem x hb))

theorem mergePicture_fields (pic : Block) (g : Grounding) (d : Bool) :
    (mergePicture pic g d).category = pic.category ∧
    (mergePicture pic g d).bbox = pic.bbox ∧
    (mergePicture pic g d).text = pic.text ∧
    (mergePicture pic g d).conf = pic.conf := by
  unfold mergePicture
  by_cases h1 : pic.category = some "Picture"
  · by_cases h2 : validBbox4 pic.bbox = true <;> simp [h1, h2]
  · simp [h1]

theorem mergePicture_children_eq (pic : Block) (g : Grounding) (d : Bool)
    (hcat : pic.category = some "Picture") (hbb : validBbox4 pic.bbox = true) :
    (mergePicture pic g d).pictureChildren =
      (fun l : List Blk => if l = [] then none else some l)
        ((g.blocks.foldl (mergeStep (pic.bbox.getD []) d)
          (pic.pictureChildren.getD [],
           if d then seedSeen (pic.pictureChildren.getD []) else [])).1) := by
  unfold mergePicture
  simp [hcat, hbb]

end DotsMerge

namespace DotsMerge

theorem mergePicture_children_eq_true (pic : Block) (g : Grounding)
    (hcat : pic.category = some "Picture") (hbb : validBbox4 pic.bbox = true) :
    (mergePicture pic g true).pictureChildren =
      (fun l : List Blk => if l = [] then none else some l)
        ((g.blocks.foldl (mergeStep (pic.bbox.getD []) true)
          (pic.pictureChildren.getD [],
           seedSeen (pic.pictureChildren.getD []))).1) := by
  rw [mergePicture_children_eq pic g true hcat hbb]
  rfl

/-- C1: the merge is idempotent — running
`attach_picture_children`'s per-picture merge twice with the identical
grounding result (dedup enabled) leaves the `picture-children` field
exactly as after the first run: the second call adds no child and
removes none. -/
theorem merge_idempotent (pic : Block) (g : Grounding)
    (hcat : pic.category = some "Picture") (hbb : validBbox4 pic.bbox = true) :
    (mergePicture (mergePicture pic g true) g true).pictureChildren =
      (mergePicture pic g true).pictureChildren := by
  have hf := mergePicture_fields pic g true
  have hcat1 : (mergePicture pic g true).category = some "Picture" := by
    rw [hf.1]; exact hcat
  have hbb1 : validBbox4 (mergePicture pic g true).bbox = true := by
    rw [hf.2.1]; exact hbb
  have h1 := mergePicture_children_eq_true pic g hcat hbb
  have h2 := mergePicture_children_eq_true (mergePicture pic g true) g hcat1 hbb1
  rw [hf.2.1] at h2
  set pb := pic.bbox.getD [] with hpbdef
  set cs0 := pic.pictureChildren.getD [] with hcs0def
  set R := g.blocks.foldl (mergeStep pb true) (cs0, seedSeen cs0) with hRdef
  have hc1 : (mergePicture pic g true).pictureChildren.getD [] = R.1 := by
    rw [h1]; exact getD_ite_empty R.1
  rw [hc1] at h2
  have hsub : ∀ k ∈ R.2, k ∈ seedSeen R.1 :=
    foldl_seen_sub pb g.blocks (cs0, seedSeen cs0) (fun _ hk => hk)
  have hnoop : g.blocks.foldl (mergeStep pb true) (R.1, seedSeen R.1) =
      (R.1, seedSeen R.1) :=
    foldl_noop pb g.blocks (R.1, seedSeen R.1)
      (fun b hb hq => hsub _ (foldl_qual_keys pb g.blocks (cs0, seedSeen cs0) b hb hq))
  rw [h2, hnoop, h1]

/-- Witness for `merge_idempotent` at a concrete picture and grounding
result: the second merge changes nothing. -/
theorem merge_idempotent_witness :
    (mergePicture
        (mergePicture ⟨some "Picture", some [0, 0, 10, 10], none, none, none⟩
          ⟨[⟨some "Text", some [1, 1, 2, 2], some "Fig. 1", none, none⟩]⟩ true)
        ⟨[⟨some "Text", some [1, 1, 2, 2], some "Fig. 1", none, none⟩]⟩
        true).pictureChildren =
      (mergePicture ⟨some "Picture", some [0, 0, 10, 10], none, none, none⟩
        ⟨[⟨some "Text", some [1, 1, 2, 2], some "Fig. 1", none, none⟩]⟩
        true).pictureChildren :=
  merge_idempotent
    ⟨some "Picture", some [0, 0, 10, 10], none, none, none⟩
    ⟨[⟨some "Text", some [1, 1, 2, 2], some "Fig. 1", none, none⟩]⟩
    (by decide) (by decide)

end DotsMerge

namespace DotsMerge

/-- The non-children core of a block is preserved: category, bbox, text
and confidence agree. -/
def fieldsEq (a b : Block) : Prop :=
  b.category = a.category ∧ b.bbox = a.bbox ∧ b.text = a.text ∧ b.conf = a.conf

theorem fieldsEq_refl (a : Block) : fieldsEq a a := ⟨rfl, rfl, rfl, rfl⟩

theorem fieldsEq_trans {a b c : Block} (h1 : fieldsEq a b) (h2 : fieldsEq b c) :
    fieldsEq a c :=
  ⟨h2.1.trans h1.1, h2.2.1.trans h1.2.1, h2.2.2.1.trans h1.2.2.1,
   h2.2.2.2.trans h1.2.2.2⟩

theorem getD_set_self_blk (l : List Block) (n : ℕ) (a : Block)
    (h : n < l.length) : (l.set n a).getD n defaultBlock = a := by
  rw [List.getD_eq_getElem?_getD, List.getElem?_set_self h]
  rfl

theorem getD_set_ne_blk (l : List Block) (n i : ℕ) (a : Block) (h : n ≠ i) :
    (l.set n a).getD i defaultBlock = l.getD i defaultBlock := by
  rw [List.getD_eq_getElem?_getD, List.getElem?_set_ne h]
  exact (List.getD_eq_getElem?_getD l i defaultBlock).symm

theorem setMerge_frame (d : Bool) (bs : List Block) (p : ℕ × Grounding) (i : ℕ) :
    (bs.set p.1 (mergePicture (bs.getD p.1 defaultBlock) p.2 d)).length = bs.length ∧
    fieldsEq (bs.getD i defaultBlock)
      ((bs.set p.1 (mergePicture (bs.getD p.1 defaultBlock) p.2 d)).getD i defaultBlock) ∧
    ((bs.getD i defaultBlock).category ≠ some "Picture" →
      (bs.set p.1 (mergePicture (bs.getD p.1 defaultBlock) p.2 d)).getD i defaultBlock =
        bs.getD i defaultBlock) := by
  refine ⟨List.length_set bs p.1 _, ?_, ?_⟩
  · by_cases hij : p.1 = i
    · subst hij
      by_cases hlt : p.1 < bs.length
      · rw [getD_set_self_blk bs p.1 _ hlt]
        have hf := mergePicture_fields (bs.getD p.1 defaultBlock) p.2 d
        exact ⟨hf.1, hf.2.1, hf.2.2.1, hf.2.2.2⟩
      · rw [List.set_eq_of_length_le (Nat.le_of_not_lt hlt)]
        exact fieldsEq_refl _
    · rw [getD_set_ne_blk bs p.1 i _ hij]
      exact fieldsEq_refl _
  · intro hnp
    by_cases hij : p.1 = i
    · subst hij
      by_cases hlt : p.1 < bs.length
      · rw [getD_set_self_blk bs p.1 _ hlt]
        exact mergePicture_noop _ _ _ (Or.inl hnp)
      · rw [List.set_eq_of_length_le (Nat.le_of_not_lt hlt)]
    · rw [getD_set_ne_blk bs p.1 i _ hij]

theorem foldSet_frame (d : Bool) (pairs : List (ℕ × Grounding)) :
    ∀ (bs : List Block),
      (pairs.foldl
        (fun bs p => bs.set p.1 (mergePicture (bs.getD p.1 defaultBlock) p.2 d))
        bs).length = bs.length ∧
      ∀ i : ℕ,
        fieldsEq (bs.getD i defaultBlock)
          ((pairs.foldl
            (fun bs p => bs.set p.1 (mergePicture (bs.getD p.1 defaultBlock) p.2 d))
            bs).getD i defaultBlock) ∧
        ((bs.getD i defaultBlock).category ≠ some "Picture" →
          (pairs.foldl
            (fun bs p => bs.set p.1 (mergePicture (bs.getD p.1 defaultBlock) p.2 d))
            bs).getD i defaultBlock = bs.getD i defaultBlock) := by
  induction pairs with
  | nil => intro bs; exact ⟨rfl, fun i => ⟨fieldsEq_refl _, fun _ => rfl⟩⟩
  | cons p pairs ih =>
    intro bs
    rw [List.foldl_cons]
    rcases ih (bs.set p.1 (mergePicture (bs.getD p.1 defaultBlock) p.2 d))
      with ⟨ihlen, ihpt⟩
    refine ⟨ihlen.trans (setMerge_frame d bs p 0).1, fun i => ?_⟩
    rcases setMerge_frame d bs p i with ⟨-, hfe, hnp⟩
    rcases ihpt i with ⟨ihfe, ihnp⟩
    refine ⟨fieldsEq_trans hfe ihfe, fun hcat => ?_⟩
    rw [ihnp (by rw [hnp hcat]; exact hcat), hnp hcat]

/-- C9: `attach_picture_children` preserves the length (and hence order)
of the document's block sequence; at every index the block's category,
bbox, text and confidence are unchanged, and a block whose category is
not `Picture` is entirely unchanged. -/
theorem attach_block_frame (doc : Doc) (pairs : List (ℕ × Grounding))
    (d : Bool) (i : ℕ) :
    (attach_picture_children doc pairs d).blocks.length = doc.blocks.length ∧
    ((attach_picture_children doc pairs d).blocks.getD i defaultBlock).category =
      (doc.blocks.getD i defaultBlock).category ∧
    ((attach_picture_children doc pairs d).blocks.getD i defaultBlock).bbox =
      (doc.blocks.getD i defaultBlock).bbox ∧
    ((attach_picture_children doc pairs d).blocks.getD i defaultBlock).text =
      (doc.blocks.getD i defaultBlock).text ∧
    ((attach_picture_children doc pairs d).blocks.getD i defaultBlock).conf =
      (doc.blocks.getD i defaultBlock).conf ∧
    ((doc.blocks.getD i defaultBlock).category ≠ some "Picture" →
      (attach_picture_children doc pairs d).blocks.getD i defaultBlock =
        doc.blocks.getD i defaultBlock) := by
  rcases foldSet_frame d pairs doc.blocks with ⟨hlen, hpt⟩
  rcases hpt i with ⟨⟨h1, h2, h3, h4⟩, h5⟩
  exact ⟨hlen, h1, h2, h3, h4, h5⟩

/-- Concrete two-block document used by `attach_block_frame_witness`. -/
def docW9 : Doc :=
  ⟨[⟨some "Text", some [7, 7, 8, 8], some "t", none, none⟩,
    ⟨some "Picture", some [0, 0, 10, 10], none, none, none⟩],
   []⟩

/-- Concrete pair list used by `attach_block_frame_witness`. -/
def pairsW9 : List (ℕ × Grounding) :=
  [(1, ⟨[⟨some "Text", some [1, 1, 2, 2], some "a", none, none⟩]⟩)]

/-- Witness for `attach_block_frame`: a concrete document with one
`Text` block and one `Picture` block, merged with one pair, keeps the
`Text` block untouched and every core field intact. -/
theorem attach_block_frame_witness :
    (attach_picture_children docW9 pairsW9 true).blocks.length = 2 ∧
    ((attach_picture_children docW9 pairsW9 true).blocks.getD 0 defaultBlock).category =
      some "Text" ∧
    ((attach_picture_children docW9 pairsW9 true).blocks.getD 0 defaultBlock).bbox =
      some [7, 7, 8, 8] ∧
    ((attach_picture_children docW9 pairsW9 true).blocks.getD 0 defaultBlock).text =
      some "t" ∧
    ((attach_picture_children docW9 pairsW9 true).blocks.getD 0 defaultBlock).conf =
      none ∧
    ((some "Text" : Option String) ≠ some "Picture" →
      (attach_picture_children docW9 pairsW9 true).blocks.getD 0 defaultBlock =
        ⟨some "Text", some [7, 7, 8, 8], some "t", none, none⟩) :=
  attach_block_frame docW9 pairsW9 true 0

end DotsMerge

namespace DotsMerge

/-- The empty grounding collaborator used by the `process_page`
counterexample and witness for the zero-picture path. -/
def runGW7 : List ℚ → Grounding := fun _ => ⟨[]⟩

/-- Concrete one-block, picture-free layout used for the zero-picture
path. -/
def docW7 : Doc := ⟨[⟨some "Text", some [1, 1, 2, 2], some "t", none, none⟩], []⟩

theorem pictureIndices_nil_of_no_picture (layout : Doc)
    (h : ∀ b ∈ layout.blocks, b.category ≠ some "Picture") :
    pictureIndices layout = [] := by
  unfold pictureIndices
  apply List.filter_eq_nil_iff.mpr
  intro i hi
  have hlt : i < layout.blocks.length := List.mem_range.mp hi
  have hmem : layout.blocks.getD i defaultBlock ∈ layout.blocks := by
    rw [List.getD_eq_getElem?_getD, List.getElem?_eq_getElem hlt]
    exact List.getElem_mem hlt
  simpa using h _ hmem

/-- C7 (amended): on a layout containing no `Picture` block,
`process_page` returns immediately — the block sequence is unchanged and
no grounding call is issued — and stamps `meta["source"]` with `"dots"`
via `setdefault` (only when the key is absent). -/
theorem zero_picture_early_return (layout : Doc) (runG : List ℚ → Grounding)
    (maxP : ℕ) (h : ∀ b ∈ layout.blocks, b.category ≠ some "Picture") :
    (process_page layout runG maxP).1.blocks = layout.blocks ∧
    (process_page layout runG maxP).1.meta =
      metaSetdefault layout.meta "source" "dots" ∧
    (process_page layout runG maxP).2 = [] := by
  have hpi := pictureIndices_nil_of_no_picture layout h
  unfold process_page
  rw [hpi]
  exact ⟨rfl, rfl, rfl⟩

/-- Witness for `zero_picture_early_return` on a concrete picture-free
layout. -/
theorem zero_picture_early_return_witness :
    (process_page docW7 runGW7 12).1.blocks = docW7.blocks ∧
    (process_page docW7 runGW7 12).1.meta =
      metaSetdefault docW7.meta "source" "dots" ∧
    (process_page docW7 runGW7 12).2 = [] :=
  zero_picture_early_return docW7 runGW7 12 (by decide)

/-- Counterexample to C7 as stated: on a picture-free layout with empty
metadata, `process_page` stamps `meta["source"]` with the value `"dots"`
— not `"layout-only"` as the claim asserts. -/
theorem zero_picture_source_is_dots :
    (process_page docW7 runGW7 12).1.meta = [("source", "dots")] ∧
    ("dots" : String) ≠ "layout-only" := by
  constructor
  · simp [process_page, docW7, pictureIndices, metaSetdefault]
  · decide

end DotsMerge

namespace DotsMerge

/-- The picture indices that pass the bbox guard of the selection loop,
in document order. -/
def validPictureIndices (layout : Doc) : List ℕ :=
  (pictureIndices layout).filter
    (fun i => validBbox4 (layout.blocks.getD i defaultBlock).bbox)

theorem selectLoop_eq_take_filter (blocks : List Block) (idxs : List ℕ) :
    ∀ k : ℕ, selectLoop blocks idxs k =
      (idxs.filter (fun i => validBbox4 (blocks.getD i defaultBlock).bbox)).take k := by
  induction idxs with
  | nil => intro k; cases k <;> simp [selectLoop]
  | cons i rest ih =>
    intro k
    cases k with
    | zero => simp [selectLoop]
    | succ k =>
      by_cases hv : validBbox4 (blocks.getD i defaultBlock).bbox = true
      · rw [show selectLoop blocks (i :: rest) (k + 1) =
            i :: selectLoop blocks rest k by rw [selectLoop, if_pos hv],
          ih k, List.filter_cons, if_pos hv, List.take_succ_cons]
      · rw [show selectLoop blocks (i :: rest) (k + 1) =
            selectLoop blocks rest (k + 1) by rw [selectLoop, if_neg hv],
          ih (k + 1), List.filter_cons, if_neg hv]

theorem foldSet_untouched (d : Bool) (pairs : List (ℕ × Grounding)) :
    ∀ (bs : List Block) (i : ℕ), (∀ p ∈ pairs, p.1 ≠ i) →
      (pairs.foldl
        (fun bs p => bs.set p.1 (mergePicture (bs.getD p.1 defaultBlock) p.2 d))
        bs).getD i defaultBlock = bs.getD i defaultBlock := by
  induction pairs with
  | nil => intro bs i _; rfl
  | cons p pairs ih =>
    intro bs i H
    rw [List.foldl_cons,
      ih _ i (fun q hq => H q (List.mem_cons_of_mem p hq)),
      getD_set_ne_blk bs p.1 i _ (H p (List.mem_cons_self p pairs))]

/-- C6 (amended): for every layout and cap `K`, `process_page` issues
grounding calls for exactly the first `min(K, V)` valid-bbox pictures in
document order, where `V` is the number of `Picture` blocks with valid
4-element bboxes — in particular exactly `K` whenever at least `K`
pictures have valid bboxes; it calls no picture twice and leaves every
block at an unselected index — in particular every excess picture —
entirely unchanged. -/
theorem picture_cap (layout : Doc) (runG : List ℚ → Grounding) (K i : ℕ) :
    (process_page layout runG K).2 = (validPictureIndices layout).take K ∧
    ((process_page layout runG K).2).length =
      min K (validPictureIndices layout).length ∧
    ((process_page layout runG K).2).Nodup ∧
    (i ∉ (validPictureIndices layout).take K →
      (process_page layout runG K).1.blocks.getD i defaultBlock =
        layout.blocks.getD i defaultBlock) := by
  by_cases hne : pictureIndices layout = []
  · have hv : validPictureIndices layout = [] := by
      unfold validPictureIndices
      rw [hne]
      rfl
    have hpp : process_page layout runG K =
        ({ layout with meta := metaSetdefault layout.meta "source" "dots" }, []) := by
      unfold process_page
      rw [hne]
      rfl
    refine ⟨?_, ?_, ?_, ?_⟩
    · rw [hpp, hv]
      simp
    · rw [hpp, hv]
      simp
    · rw [hpp]
      exact List.nodup_nil
    · intro _
      rw [hpp]
  · have hsel : selectLoop layout.blocks (pictureIndices layout) K =
        (validPictureIndices layout).take K :=
      selectLoop_eq_take_filter layout.blocks (pictureIndices layout) K
    have hpp : process_page layout runG K =
        (attach_picture_children layout
          ((selectLoop layout.blocks (pictureIndices layout) K).map
            (fun i => (i, runG ((layout.blocks.getD i defaultBlock).bbox.getD []))))
          true,
         selectLoop layout.blocks (pictureIndices layout) K) := by
      unfold process_page
      rw [if_neg hne]
    refine ⟨by rw [hpp, hsel], ?_, ?_, ?_⟩
    · rw [hpp, hsel, List.length_take]
    · rw [hpp, hsel]
      exact List.Nodup.sublist (List.take_sublist K _)
        (((List.nodup_range layout.blocks.length).filter _).filter _)
    · intro hi
      rw [hpp]
      exact foldSet_untouched true _ layout.blocks i (by
        intro p hp
        rcases List.mem_map.mp hp with ⟨j, hj, rfl⟩
        rw [hsel] at hj
        exact fun hji => hi (hji ▸ hj))

end DotsMerge

namespace DotsMerge

/-- Empty grounding collaborator for the C6 witness and counterexample. -/
def runGW6 : List ℚ → Grounding := fun _ => ⟨[]⟩

/-- Two valid-bbox pictures, used with cap 1. -/
def docW6 : Doc :=
  ⟨[⟨some "Picture", some [0, 0, 10, 10], none, none, none⟩,
    ⟨some "Picture", some [20, 20, 30, 30], none, none, none⟩], []⟩

/-- Witness for `picture_cap`: two valid pictures, cap 1. -/
theorem picture_cap_witness :
    (process_page docW6 runGW6 1).2 = (validPictureIndices docW6).take 1 ∧
    ((process_page docW6 runGW6 1).2).length =
      min 1 (validPictureIndices docW6).length ∧
    ((process_page docW6 runGW6 1).2).Nodup ∧
    (1 ∉ (validPictureIndices docW6).take 1 →
      (process_page docW6 runGW6 1).1.blocks.getD 1 defaultBlock =
        docW6.blocks.getD 1 defaultBlock) :=
  picture_cap docW6 runGW6 1 1

/-- Two pictures, both with missing bboxes. -/
def docW6bad : Doc :=
  ⟨[⟨some "Picture", none, none, none, none⟩,
    ⟨some "Picture", none, none, none, none⟩], []⟩

/-- Counterexample to C6 as stated: this layout has N = 2 `Picture`
blocks and cap K = 1 < N, yet zero — not exactly K = 1 — grounding
calls are issued, because neither picture carries a valid bbox. -/
theorem picture_cap_counterexample :
    (pictureIndices docW6bad).length = 2 ∧
    ((process_page docW6bad runGW6 1).2).length = 0 ∧ (0 : ℕ) ≠ 1 := by
  refine ⟨by decide, by decide, by decide⟩

end DotsMerge
